import Mathlib

/-!
Shallow embedding of the `django-materialized-paths` core
(`paths/utils.py` and `paths/models.py`).

Machine integers are modelled as `Nat` (identifiers are non-negative
integers; Python ints are unbounded).  Fallible Python code (functions
that may raise) returns `Option`/`Except`.  The Django record store is
modelled as a `List Record`; the SQL statements issued by
`BaseNode.save` (`filter(path__startswith=..).update(path=REPLACE(..))`)
are modelled by explicit list transformations with SQL `REPLACE`
semantics (all occurrences replaced, empty search pattern is a no-op,
`NULL` replacement propagates to `NULL`).

Recursive loops are written with an explicit fuel argument (as the
source loops are `while` loops); the fuel supplied at every call site
strictly dominates the number of iterations the Python loop performs,
which the accompanying lemmas make precise.
-/

namespace MatPath

/-- `paths/utils.py`: the digit table `'0123456789ABCDEFGHIJKLMNOPQRSTUVWXYZ'`. -/
def base36digits : List Char := "0123456789ABCDEFGHIJKLMNOPQRSTUVWXYZ".data

/-- `digits[i]` for `i < 36` (callers only index with `num % 36`). -/
def base36digit (i : Nat) : Char := base36digits.getD i '0'

/-- The do-while loop of `base36encode`:
`while not res or num > 0: num, i = divmod(num, 36); res = digits[i] + res`.
The first iteration always runs (`res` starts empty); afterwards the loop
continues while the quotient is positive.  `fuel` bounds the iteration
count; `num + 1` always suffices since the quotient strictly decreases. -/
def b36goF : Nat → Nat → List Char → List Char
  | 0, _, res => res
  | Nat.succ fuel, num, res =>
      let res' := base36digit (num % 36) :: res
      if num / 36 > 0 then b36goF fuel (num / 36) res' else res'

/-- `paths/utils.py` `base36encode`: converts a non-negative integer into a
base-36 string (the source raises on negative input; the `Nat` domain
already excludes it). -/
def base36encode (num : Nat) : String := ⟨b36goF (num + 1) num []⟩

/-- Value of one base-36 character as accepted by Python `int(s, 36)` on a
plain unsigned ASCII numeral: decimal digits, upper- and lower-case
letters.  CPython's `int` additionally accepts surrounding whitespace, one
leading sign (which can make the result negative), internal underscores,
and non-ASCII Unicode decimal digits; none of those forms are modelled
here, so every theorem that asserts a decode FAILURE restricts its
offending character so that no such extended numeral could absorb it
(see `strayChar`), and theorems about successful decodes only exercise
plain ASCII-alphanumeric bodies, where this model and CPython agree. -/
def b36charVal (c : Char) : Option Nat :=
  if 48 ≤ c.toNat ∧ c.toNat ≤ 57 then some (c.toNat - 48)
  else if 65 ≤ c.toNat ∧ c.toNat ≤ 90 then some (c.toNat - 55)
  else if 97 ≤ c.toNat ∧ c.toNat ≤ 122 then some (c.toNat - 87)
  else none

/-- Left-to-right positional accumulation of `int(s, 36)`. -/
def b36decAux : List Char → Nat → Option Nat
  | [], acc => some acc
  | c :: cs, acc =>
      match b36charVal c with
      | none => none
      | some v => b36decAux cs (acc * 36 + v)

/-- `int(s, 36)` on a plain unsigned ASCII-alphanumeric string: the empty
string and any string containing an invalid character raise `ValueError`
(modelled as `none`).  As documented on `b36charVal`, CPython's `int`
accepts more forms (signs, whitespace, underscores, Unicode digits);
theorems therefore only assert failure when the body contains a
`strayChar`, and only assert success for plain alphanumeric bodies. -/
def base36decodeL (l : List Char) : Option Nat :=
  if l = [] then none else b36decAux l 0

/-- `paths/utils.py` `base36decode`. -/
def base36decode (s : String) : Option Nat := base36decodeL s.data

/-- `paths/utils.py` `xstr`: maps `None` to the empty string. -/
def xstr : Option String → String
  | none => ""
  | some s => s

/-- `BaseNode.encode_base36_id`: `str(len(b36)) + b36` — note the length
prefix is the DECIMAL representation of the length. -/
def encode_base36_id (num : Nat) : String :=
  Nat.repr (base36encode num).length ++ base36encode num

/-- `BaseNode.decode_base36_id`. -/
def decode_base36_id (s : String) : Option Nat := base36decode s

/-- `int(path[cursor - 1])` on a single ASCII character: only the decimal
digits `'0'..'9'` parse; every other ASCII character (letters, punctuation,
a lone sign, lone whitespace, `'_'`) raises `ValueError`.  CPython's `int`
additionally accepts any non-ASCII Unicode category-Nd digit (e.g.
`int('٣') == 3`), which this model does not cover; theorems that assert a
FAILURE of the length digit therefore hypothesize an ASCII character,
where the model and CPython agree exactly. -/
def decDigitVal (c : Char) : Option Nat :=
  if 48 ≤ c.toNat ∧ c.toNat ≤ 57 then some (c.toNat - 48) else none

/-- An ASCII character on which CPython's `int(s, 36)` can never succeed,
wherever it occurs in the string: it is not a base-36 digit or letter, not
a sign (`'+'` 43, `'-'` 45), not an underscore (95), and not Python
whitespace (codes 9–13 and 28–32).  A body containing such a character
raises `ValueError` in the program under every extended numeral form
Python accepts, so the model's failure on it is faithful. -/
def strayChar (c : Char) : Bool :=
  c.toNat < 128 && (b36charVal c).isNone &&
  !(c.toNat = 43 || c.toNat = 45 || c.toNat = 95 ||
    (9 ≤ c.toNat && c.toNat ≤ 13) || (28 ≤ c.toNat && c.toNat ≤ 32))

/-- The `while cursor < len(path)` loop of `decode_path_to_ids`, expressed
on the suffix of the path starting at the current length digit
(`path[cursor - 1:]`).  The loop runs while at least two characters remain
(length digit plus a non-empty remainder); a single trailing character is
silently skipped, exactly as in the source.  The token body
`path[cursor:cursor + b36len]` is a Python slice and therefore CLAMPS when
the declared length overruns the remaining string.  Fuel: each iteration
consumes at least one character, so `s.length` fuel always suffices. -/
def decodeAuxF : Nat → List Char → Option (List Nat)
  | _, [] => some []
  | _, [_] => some []
  | Nat.succ fuel, c :: rest =>
      match decDigitVal c with
      | none => none
      | some d =>
          match base36decodeL (rest.take d) with
          | none => none
          | some n =>
              match decodeAuxF fuel (rest.drop d) with
              | none => none
              | some ids => some (n :: ids)
  | 0, _ :: _ :: _ => none

/-- `BaseNode.decode_path_to_ids`: `None` and the empty string decode to
`[]` (`if not path: return ids`); otherwise the cursor loop runs. -/
def decode_path_to_ids (path : Option String) : Option (List Nat) :=
  match path with
  | none => some []
  | some s => if s.data = [] then some [] else decodeAuxF s.data.length s.data

/-- `BaseNode.encode_ids_to_path`: fold of `encode_base36_id`. -/
def encode_ids_to_path (ids : List Nat) : String :=
  ids.foldl (fun path i => path ++ encode_base36_id i) ""

/-- A persisted row of the single self-referential table: an identifier,
a nullable `parent_id`, and the nullable materialized `path` column. -/
structure Record where
  id : Nat
  parent_id : Option Nat
  path : Option String
deriving DecidableEq

/-- The record store; Django querysets over the table are list scans. -/
abbrev Store := List Record

/-- `objects.get(pk=i)` / `objects.get(id=i)` (first match, `none` models
`DoesNotExist`). -/
def lookup (store : Store) (i : Nat) : Option Record :=
  store.find? (fun r => r.id == i)

/-- Python truthiness of a nullable id: `None` and `0` are falsy. -/
def truthyId : Option Nat → Bool
  | none => false
  | some n => n != 0

/-- Python truthiness of a nullable string: `None` and `''` are falsy. -/
def truthyPath : Option String → Bool
  | none => false
  | some s => !s.data.isEmpty

/-- `BaseNode.depth`: `0` when `path` is falsy, else the number of decoded
ids (`none` models the `ValueError` a malformed path raises). -/
def depth (r : Record) : Option Nat :=
  if truthyPath r.path = false then some 0
  else (decode_path_to_ids r.path).map List.length

deriving instance DecidableEq for Except

/-- Errors surfaced by the read operations. -/
inductive QueryError where
  | invalid
  | malformed
  | indexError
  | notFound
deriving DecidableEq

/-- `BaseNode.get_root`: `self` when `path` is falsy, else
`objects.get(id=decode_path_to_ids(path)[0])`. -/
def get_root (store : Store) (rec : Record) : Except QueryError Record :=
  if truthyPath rec.path = false then Except.ok rec
  else
    match decode_path_to_ids rec.path with
    | none => Except.error QueryError.malformed
    | some [] => Except.error QueryError.indexError
    | some (rootId :: _) =>
        match lookup store rootId with
        | some r => Except.ok r
        | none => Except.error QueryError.notFound

/-- `BaseNode.get_ancestor(depth)`, in the source's evaluation order:
negative depth raises `ValueError`; depth 0 delegates to `get_root`;
a depth identical to the record's own depth returns the record; larger
depths raise `ValueError`; otherwise `objects.get(pk=ids[depth])`.

The source compares with `is`, not `==` (`if depth is 0`, line 130, and
`if self_depth is depth`, line 134).  In CPython `is` on ints is object
identity: equal ints are identical exactly when they fall in the small-int
cache `-5..256`, and `len(...)` and a caller-supplied argument of equal
value `>= 257` are distinct objects.  `depth is 0` is therefore faithfully
`d = 0` (0 is cached), while `self_depth is depth` is modelled as
`sd = d ∧ sd ≤ 256`; for an equal depth `>= 257` both identity tests fail,
`self_depth < depth` also fails, and the program falls through to
`ids[depth]` with `depth == len(ids)` — an `IndexError`. -/
def get_ancestor (store : Store) (rec : Record) (d : Int) : Except QueryError Record :=
  if d < 0 then Except.error QueryError.invalid
  else if d = 0 then get_root store rec
  else
    match depth rec with
    | none => Except.error QueryError.malformed
    | some sd =>
        if (sd : Int) = d ∧ sd ≤ 256 then Except.ok rec
        else if (sd : Int) < d then Except.error QueryError.invalid
        else
          match decode_path_to_ids rec.path with
          | none => Except.error QueryError.malformed
          | some ids =>
              match ids.get? d.toNat with
              | none => Except.error QueryError.indexError
              | some a =>
                  match lookup store a with
                  | some r => Except.ok r
                  | none => Except.error QueryError.notFound

/-- `BaseNode.get_siblings`: when `parent_id` is falsy, ALL other roots
are returned directly as a (possibly empty) queryset; otherwise the
queryset of same-parent rows excluding `self`, converted to `None` when
empty. -/
def get_siblings (store : Store) (rec : Record) : Option (List Record) :=
  if truthyId rec.parent_id = false then
    some (store.filter (fun r => r.parent_id == none && r.id != rec.id))
  else
    let results := store.filter (fun r => r.parent_id == rec.parent_id && r.id != rec.id)
    if results.isEmpty then none else some results

/-- Left-to-right, non-overlapping replace-all over character lists: the
semantics of SQL `REPLACE(s, pat, rep)` for a non-empty `pat`.  Fuel:
every step consumes at least one character of `s` when `pat` is
non-empty, so `s.length` fuel suffices. -/
def replaceAllF : Nat → List Char → List Char → List Char → List Char
  | 0, s, _, _ => s
  | Nat.succ fuel, s, pat, rep =>
      match s with
      | [] => []
      | c :: rest =>
          if pat.isPrefixOf s then rep ++ replaceAllF fuel (s.drop pat.length) pat rep
          else c :: replaceAllF fuel rest pat rep

/-- SQL `REPLACE(s, pat, rep)` as issued by
`update(path=Func(F('path'), Value(pat), Value(rep), function='replace'))`:
a `NULL` replacement argument makes the whole expression `NULL`, an empty
search pattern leaves the string unchanged, otherwise every occurrence of
`pat` is replaced. -/
def sqlReplace (s pat : String) (rep : Option String) : Option String :=
  match rep with
  | none => none
  | some r =>
      if pat.data = [] then some s
      else some ⟨replaceAllF s.data.length s.data pat.data r.data⟩

/-- SQL `LIKE 'search%'` on the `path` column (`path__startswith`);
`NULL` paths never match. -/
def startsWith (s pre : String) : Bool := pre.data.isPrefixOf s.data

/-- The bulk statement of `BaseNode.save`:
`filter(path__startswith=search).update(path=REPLACE(path, pat, rep))`. -/
def bulkReplace (store : Store) (search pat : String) (rep : Option String) : Store :=
  store.map fun r =>
    match r.path with
    | some p => if startsWith p search then Record.mk r.id r.parent_id (sqlReplace p pat rep) else r
    | none => r

/-- `super().save()`: writes the row for `r.id` (update if present,
insert otherwise). -/
def persist (store : Store) (r : Record) : Store :=
  if store.any (fun x => x.id == r.id) then
    store.map (fun x => if x.id == r.id then r else x)
  else store ++ [r]

/-- Errors `BaseNode.save` can raise: the cycle `ValidationError`
(the spec's `CyclicParentError`), a `ValueError` from decoding a
malformed path, and `DoesNotExist` from dereferencing `self.parent`. -/
inductive SaveError where
  | validation
  | malformed
  | missingParent
deriving DecidableEq

/-- `BaseNode.save(store, rec, origPid, adding)`: `origPid` is
`_original_parent_id` (the `parent_id` captured by `__init__`), `adding`
is `self._state.adding`.  Returns the outcome for the saved instance and
the resulting store; on an error the store is returned at the point the
exception is raised (no later statement executes). -/
def save (store : Store) (rec : Record) (origPid : Option Nat) (adding : Bool) :
    Except SaveError Record × Store :=
  if adding then
    match rec.parent_id with
    | none =>
        let r' := Record.mk rec.id rec.parent_id none
        (Except.ok r', persist store r')
    | some pid =>
        match lookup store pid with
        | none => (Except.error SaveError.missingParent, store)
        | some parent =>
            let newPath :=
              if truthyPath parent.path then some (xstr parent.path ++ encode_base36_id pid)
              else some (encode_base36_id pid)
            let r' := Record.mk rec.id rec.parent_id newPath
            (Except.ok r', persist store r')
  else if origPid ≠ rec.parent_id then
    let searchVal := xstr rec.path ++ encode_base36_id rec.id
    let removeVal := xstr rec.path
    match rec.parent_id, truthyId rec.parent_id with
    | some pid, true =>
        match lookup store pid with
        | none => (Except.error SaveError.missingParent, store)
        | some parent =>
            let newPath := some (xstr parent.path ++ encode_base36_id pid)
            match decode_path_to_ids newPath with
            | none => (Except.error SaveError.malformed, store)
            | some parentIds =>
                if rec.id ∈ parentIds then (Except.error SaveError.validation, store)
                else
                  let r' := Record.mk rec.id rec.parent_id newPath
                  let store' := bulkReplace store searchVal removeVal newPath
                  (Except.ok r', persist store' r')
    | _, _ =>
        let r' := Record.mk rec.id rec.parent_id none
        let store' := bulkReplace store searchVal removeVal none
        (Except.ok r', persist store' r')
  else (Except.ok rec, persist store rec)

/-! ### Lemmas about the base-36 encoder/decoder -/

theorem b36goF_prepend (f : Nat) : ∀ n res, b36goF f n res = b36goF f n [] ++ res := by
  induction f with
  | zero => intro n res; simp [b36goF]
  | succ f ih =>
      intro n res
      by_cases h : n / 36 > 0
      · simp only [b36goF, if_pos h]
        rw [ih (n / 36) (base36digit (n % 36) :: res),
          ih (n / 36) [base36digit (n % 36)]]
        simp
      · simp [b36goF, if_neg h]

theorem b36decAux_append (l1 : List Char) :
    ∀ l2 acc, b36decAux (l1 ++ l2) acc = (b36decAux l1 acc).bind (fun m => b36decAux l2 m) := by
  induction l1 with
  | nil => intro l2 acc; simp [b36decAux]
  | cons c cs ih =>
      intro l2 acc
      simp only [List.cons_append, b36decAux]
      cases h : b36charVal c with
      | none => rfl
      | some v => simpa using ih l2 (acc * 36 + v)

theorem b36charVal_base36digit : ∀ i, i < 36 → b36charVal (base36digit i) = some i := by decide

theorem b36goF_ne_nil (f : Nat) : ∀ n res, b36goF (f + 1) n res ≠ [] := by
  induction f with
  | zero =>
      intro n res
      by_cases h : n / 36 > 0 <;> simp [b36goF, h]
  | succ f ih =>
      intro n res
      by_cases h : n / 36 > 0
      · simpa [b36goF, h] using ih (n / 36) (base36digit (n % 36) :: res)
      · simp [b36goF, h]

theorem b36decAux_b36goF (f : Nat) :
    ∀ n acc, n < f →
      b36decAux (b36goF f n []) acc = some (acc * 36 ^ (b36goF f n []).length + n) := by
  induction f with
  | zero => intro n acc h; omega
  | succ f ih =>
      intro n acc h
      by_cases hq : n / 36 > 0
      · have h36 : 36 ≤ n := by
          rcases Nat.lt_or_ge n 36 with hlt | hge
          · exfalso; rw [Nat.div_eq_of_lt hlt] at hq; omega
          · exact hge
        have hfn : n / 36 < f := by
          have h1 : n / 36 < n := Nat.div_lt_self (by omega) (by omega)
          omega
        have hv : b36charVal (base36digit (n % 36)) = some (n % 36) :=
          b36charVal_base36digit _ (Nat.mod_lt _ (by omega))
        have hstep : b36goF (f + 1) n [] = b36goF f (n / 36) [] ++ [base36digit (n % 36)] := by
          simp only [b36goF, if_pos hq]
          exact b36goF_prepend f (n / 36) [base36digit (n % 36)]
        rw [hstep, b36decAux_append, ih (n / 36) acc hfn, Option.some_bind]
        have hone : ∀ m, b36decAux [base36digit (n % 36)] m = some (m * 36 + n % 36) := by
          intro m; simp [b36decAux, hv]
        rw [hone]
        congr 1
        simp only [List.length_append, List.length_cons, List.length_nil]
        set L := (b36goF f (n / 36) []).length with hL
        have hdm : 36 * (n / 36) + n % 36 = n := Nat.div_add_mod n 36
        calc (acc * 36 ^ L + n / 36) * 36 + n % 36
            = acc * (36 ^ L * 36) + (36 * (n / 36) + n % 36) := by ring
          _ = acc * 36 ^ (L + 1) + n := by rw [hdm, pow_succ]
      · have hn36 : n < 36 := by
          rcases Nat.lt_or_ge n 36 with hlt | hge
          · exact hlt
          · exfalso
            have : 0 < n / 36 := Nat.div_pos hge (by omega)
            omega
        have hmod : n % 36 = n := Nat.mod_eq_of_lt hn36
        have hv : b36charVal (base36digit n) = some n := b36charVal_base36digit n hn36
        simp only [b36goF, if_neg hq, hmod]
        simp [b36decAux, hv, pow_one]

theorem base36encode_data_ne_nil (n : Nat) : (base36encode n).data ≠ [] :=
  b36goF_ne_nil n n []

theorem base36decodeL_base36encode (n : Nat) : base36decodeL (base36encode n).data = some n := by
  have h := b36decAux_b36goF (n + 1) n 0 (by omega)
  have hne := base36encode_data_ne_nil n
  simp only [base36encode] at hne ⊢
  simp only [base36decodeL, if_neg hne]
  simpa using h

theorem b36goF_length_le (f : Nat) :
    ∀ k n, n < f → n < 36 ^ k → 1 ≤ k → (b36goF f n []).length ≤ k := by
  induction f with
  | zero => intro k n h; omega
  | succ f ih =>
      intro k n hf hk hk1
      by_cases hq : n / 36 > 0
      · have h36 : 36 ≤ n := by
          by_contra hlt
          rw [Nat.div_eq_of_lt (by omega)] at hq
          omega
        have hfn : n / 36 < f := by
          have := Nat.div_lt_self (by omega : 0 < n) (by omega : 1 < 36)
          omega
        have hk2 : 2 ≤ k := by
          by_contra hlt
          interval_cases k
          simp at hk
          omega
        have hdiv : n / 36 < 36 ^ (k - 1) := by
          rw [Nat.div_lt_iff_lt_mul (by omega : 0 < 36)]
          calc n < 36 ^ k := hk
            _ = 36 ^ (k - 1) * 36 := by
                rw [← Nat.pow_succ]
                congr 1
                omega
        have := ih (k - 1) (n / 36) hfn hdiv (by omega)
        simp only [b36goF, if_pos hq]
        rw [b36goF_prepend f (n / 36) [base36digit (n % 36)]]
        simp only [List.length_append, List.length_cons, List.length_nil]
        omega
      · simp [b36goF, if_neg hq]
        omega

theorem base36encode_length_le_9 {n : Nat} (h : n < 36 ^ 9) : (base36encode n).length ≤ 9 :=
  b36goF_length_le (n + 1) 9 n (by omega) h (by omega)

theorem base36encode_length_pos (n : Nat) : 1 ≤ (base36encode n).length := by
  cases h : (base36encode n).data with
  | nil => exact absurd h (base36encode_data_ne_nil n)
  | cons c l =>
      have hlen : (base36encode n).length = (base36encode n).data.length := rfl
      rw [hlen, h, List.length_cons]
      omega

/-! ### Lemmas about tokens and path decoding -/

theorem repr_digit : ∀ L, 1 ≤ L → L ≤ 9 →
    (Nat.repr L).data = [Char.ofNat (48 + L)] ∧ decDigitVal (Char.ofNat (48 + L)) = some L := by
  intro L h1 h2
  refine ⟨?_, ?_⟩ <;> interval_cases L <;> decide

theorem decodeAuxF_nil (f : Nat) : decodeAuxF f [] = some [] := by
  cases f <;> rfl

theorem decodeAuxF_single (f : Nat) (c : Char) : decodeAuxF f [c] = some [] := by
  cases f <;> rfl

theorem decodeAuxF_cons_cons (f : Nat) (c b : Char) (l : List Char) :
    decodeAuxF (f + 1) (c :: b :: l) =
      match decDigitVal c with
      | none => none
      | some d =>
          match base36decodeL ((b :: l).take d) with
          | none => none
          | some n =>
              match decodeAuxF f ((b :: l).drop d) with
              | none => none
              | some ids => some (n :: ids) := rfl

theorem decodeAuxF_cons_none (f : Nat) (c b : Char) (l : List Char)
    (hc : decDigitVal c = none) : decodeAuxF (f + 1) (c :: b :: l) = none := by
  rw [decodeAuxF_cons_cons, hc]

theorem decodeAuxF_cons_some (f : Nat) (c b : Char) (l : List Char) (d : Nat)
    (hc : decDigitVal c = some d) :
    decodeAuxF (f + 1) (c :: b :: l) =
      match base36decodeL ((b :: l).take d) with
      | none => none
      | some n =>
          match decodeAuxF f ((b :: l).drop d) with
          | none => none
          | some ids => some (n :: ids) := by
  rw [decodeAuxF_cons_cons, hc]

theorem decodeAuxF_peel {n : Nat} (h : n < 36 ^ 9) (f : Nat) (rest : List Char) :
    decodeAuxF (f + 1) ((encode_base36_id n).data ++ rest) =
      (decodeAuxF f rest).map (fun l => n :: l) := by
  have hL1 : 1 ≤ (base36encode n).length := base36encode_length_pos n
  have hL9 : (base36encode n).length ≤ 9 := base36encode_length_le_9 h
  obtain ⟨hrepr, hdig⟩ := repr_digit (base36encode n).length hL1 hL9
  have hdata : (encode_base36_id n).data =
      Char.ofNat (48 + (base36encode n).length) :: (base36encode n).data := by
    simp only [encode_base36_id, String.data_append, hrepr, List.singleton_append]
  obtain ⟨b, B', hBcons⟩ : ∃ b B', (base36encode n).data = b :: B' := by
    cases hB : (base36encode n).data with
    | nil => exact absurd hB (base36encode_data_ne_nil n)
    | cons b B' => exact ⟨b, B', rfl⟩
  have hBlen : (base36encode n).length = (b :: B').length := by
    show (base36encode n).data.length = _
    rw [hBcons]
  have hdec : base36decodeL (b :: B') = some n := by
    rw [← hBcons]; exact base36decodeL_base36encode n
  rw [hdata, hBcons]
  simp only [List.cons_append]
  rw [decodeAuxF_cons_cons, hdig, hBlen]
  simp only [← List.cons_append, List.take_left, List.drop_left, hdec]
  cases decodeAuxF f rest <;> rfl

theorem encode_foldl_acc (ids : List Nat) : ∀ acc : String,
    List.foldl (fun p i => p ++ encode_base36_id i) acc ids = acc ++ encode_ids_to_path ids := by
  induction ids with
  | nil =>
      intro acc
      simp only [List.foldl_nil, encode_ids_to_path]
      rw [String.append_empty]
  | cons i tl ih =>
      intro acc
      simp only [List.foldl_cons, encode_ids_to_path]
      rw [ih (acc ++ encode_base36_id i), ih ("" ++ encode_base36_id i),
        String.empty_append, String.append_assoc]

theorem encode_ids_to_path_cons (i : Nat) (tl : List Nat) :
    encode_ids_to_path (i :: tl) = encode_base36_id i ++ encode_ids_to_path tl := by
  show List.foldl (fun p j => p ++ encode_base36_id j) "" (i :: tl) = _
  rw [List.foldl_cons, encode_foldl_acc, String.empty_append]

theorem encode_ids_to_path_append (l1 l2 : List Nat) :
    encode_ids_to_path (l1 ++ l2) = encode_ids_to_path l1 ++ encode_ids_to_path l2 := by
  show List.foldl (fun p j => p ++ encode_base36_id j) "" (l1 ++ l2) = _
  rw [List.foldl_append, encode_foldl_acc]
  rfl

theorem decodeAuxF_encode (ids : List Nat) :
    ∀ rest f, (∀ i ∈ ids, i < 36 ^ 9) →
      decodeAuxF (f + ids.length) ((encode_ids_to_path ids).data ++ rest) =
        (decodeAuxF f rest).map (fun l => ids ++ l) := by
  induction ids with
  | nil =>
      intro rest f _
      show decodeAuxF (f + 0) (("" : String).data ++ rest) = _
      rw [show ("" : String).data = [] from rfl, List.nil_append, Nat.add_zero]
      cases decodeAuxF f rest <;> rfl
  | cons i tl ih =>
      intro rest f h
      have hi : i < 36 ^ 9 := h i (by simp)
      have htl : ∀ j ∈ tl, j < 36 ^ 9 := fun j hj => h j (by simp [hj])
      rw [encode_ids_to_path_cons, String.data_append, List.append_assoc]
      have hidx : f + (i :: tl).length = (f + tl.length) + 1 := by
        simp only [List.length_cons]; omega
      rw [hidx, decodeAuxF_peel hi (f + tl.length), ih rest f htl, Option.map_map]
      cases decodeAuxF f rest <;> simp

theorem length_le_encode (ids : List Nat) :
    ids.length ≤ (encode_ids_to_path ids).data.length := by
  induction ids with
  | nil => simp
  | cons i tl ih =>
      rw [encode_ids_to_path_cons, String.data_append, List.length_append, List.length_cons]
      have h1 : 1 ≤ (encode_base36_id i).data.length := by
        simp only [encode_base36_id, String.data_append, List.length_append]
        cases hB : (base36encode i).data with
        | nil => exact absurd hB (base36encode_data_ne_nil i)
        | cons b B' =>
            simp only [List.length_cons]
            omega
      omega

theorem decode_encode {ids : List Nat} (h : ∀ i ∈ ids, i < 36 ^ 9) :
    decode_path_to_ids (some (encode_ids_to_path ids)) = some ids := by
  cases hids : ids with
  | nil => rfl
  | cons i tl =>
      rw [← hids]
      have hpos : 1 ≤ ids.length := by rw [hids]; simp
      have hlen : ids.length ≤ (encode_ids_to_path ids).data.length := length_le_encode _
      have hne : ¬((encode_ids_to_path ids).data = []) := by
        intro hnil
        rw [hnil] at hlen
        simp only [List.length_nil] at hlen
        omega
      simp only [decode_path_to_ids, if_neg hne]
      have hsplit : (encode_ids_to_path ids).data.length =
          ((encode_ids_to_path ids).data.length - ids.length) + ids.length := by omega
      rw [hsplit]
      have hmain := decodeAuxF_encode ids []
        ((encode_ids_to_path ids).data.length - ids.length) h
      rw [List.append_nil, decodeAuxF_nil] at hmain
      rw [hmain]
      simp

theorem encode_ids_to_path_single (i : Nat) :
    encode_ids_to_path [i] = encode_base36_id i := by
  show List.foldl (fun p j => p ++ encode_base36_id j) "" [i] = _
  rw [List.foldl_cons, List.foldl_nil, String.empty_append]

theorem b36decAux_none_of_bad (l : List Char) :
    ∀ acc, (∃ c ∈ l, b36charVal c = none) → b36decAux l acc = none := by
  induction l with
  | nil => intro acc h; simp at h
  | cons c cs ih =>
      intro acc h
      obtain ⟨x, hx, hbad⟩ := h
      rcases List.mem_cons.mp hx with hh | hmem
      · subst hh; simp [b36decAux, hbad]
      · cases hv : b36charVal c with
        | none => simp [b36decAux, hv]
        | some v =>
            simp only [b36decAux, hv]
            exact ih _ ⟨x, hmem, hbad⟩

theorem strayChar_b36 {c : Char} (h : strayChar c = true) : b36charVal c = none := by
  simp only [strayChar, Bool.and_eq_true] at h
  exact Option.isNone_iff_eq_none.mp h.1.2

theorem mem_persist_of_ne {store : Store} {r x : Record} (hr : r ∈ store) (hne : r.id ≠ x.id) :
    r ∈ persist store x := by
  unfold persist
  by_cases h : store.any (fun y => y.id == x.id)
  · rw [if_pos h]
    have heq : (fun y => if y.id == x.id then x else y) r = r := by
      have hb : (r.id == x.id) = false := by simp [hne]
      simp [hb]
    exact heq ▸ List.mem_map_of_mem _ hr
  · rw [if_neg h]
    exact List.mem_append_left _ hr

theorem base36digit_of_le_9 : ∀ L, L ≤ 9 → base36digit L = Char.ofNat (48 + L) := by decide

theorem base36digit_ne_zero : ∀ m, 1 ≤ m → m ≤ 35 → base36digit m ≠ '0' := by decide

theorem b36goF_head_ne_zero (f : Nat) :
    ∀ n res, 0 < n → n < f → ∃ c l, b36goF f n res = c :: l ∧ c ≠ '0' := by
  induction f with
  | zero => intro n res h hf; omega
  | succ f ih =>
      intro n res hn hf
      by_cases hq : n / 36 > 0
      · simp only [b36goF, if_pos hq]
        have h36 : 36 ≤ n := by
          rcases Nat.lt_or_ge n 36 with hlt | hge
          · exfalso; rw [Nat.div_eq_of_lt hlt] at hq; omega
          · exact hge
        have hfn : n / 36 < f := by
          have h1 : n / 36 < n := Nat.div_lt_self (by omega) (by omega)
          omega
        exact ih (n / 36) _ hq hfn
      · have hn36 : n < 36 := by
          rcases Nat.lt_or_ge n 36 with hlt | hge
          · exact hlt
          · exfalso
            have : 0 < n / 36 := Nat.div_pos hge (by omega)
            omega
        simp only [b36goF, if_neg hq]
        refine ⟨base36digit (n % 36), res, rfl, ?_⟩
        rw [Nat.mod_eq_of_lt hn36]
        exact base36digit_ne_zero n (by omega) (by omega)

theorem depth_of_encode {ids : List Nat} (h : ∀ i ∈ ids, i < 36 ^ 9) (hne : ids ≠ [])
    {r : Record} (hp : r.path = some (encode_ids_to_path ids)) :
    depth r = some ids.length := by
  have hpos : 1 ≤ ids.length := by
    cases ids with
    | nil => exact absurd rfl hne
    | cons a l => simp
  have hlen : ids.length ≤ (encode_ids_to_path ids).data.length := length_le_encode _
  have hdne : ¬(encode_ids_to_path ids).data.isEmpty := by
    rw [List.isEmpty_iff]
    intro hnil
    rw [hnil] at hlen
    simp only [List.length_nil] at hlen
    omega
  have htr : truthyPath r.path = true := by
    rw [hp]
    simp only [truthyPath, Bool.not_eq_true']
    simpa using hdne
  unfold depth
  rw [htr]
  simp only [Bool.true_eq_false, if_false, hp, decode_encode h, Option.map_some']

theorem depth_of_none {r : Record} (hp : r.path = none) : depth r = some 0 := by
  unfold depth
  rw [hp]
  rfl

theorem get_root_of_none {store : Store} {r : Record} (hp : r.path = none) :
    get_root store r = Except.ok r := by
  unfold get_root
  rw [hp]
  rfl

theorem decode_encode_tail {ids : List Nat} (h : ∀ i ∈ ids, i < 36 ^ 9)
    (t : List Char) (htne : t ≠ []) :
    ∃ g, decode_path_to_ids (some (encode_ids_to_path ids ++ String.mk t)) =
      (decodeAuxF (g + t.length) t).map (fun l => ids ++ l) := by
  have hlen := length_le_encode ids
  have hdata : (encode_ids_to_path ids ++ String.mk t).data =
      (encode_ids_to_path ids).data ++ t := by
    rw [String.data_append]
  have hne2 : ¬((encode_ids_to_path ids ++ String.mk t).data = []) := by
    rw [hdata]
    intro hh
    exact htne (List.append_eq_nil.mp hh).2
  simp only [decode_path_to_ids, hdata]
  have hne3 : ¬((encode_ids_to_path ids).data ++ t = []) :=
    fun hh => htne (List.append_eq_nil.mp hh).2
  refine ⟨(encode_ids_to_path ids).data.length - ids.length, ?_⟩
  have hflen : ((encode_ids_to_path ids).data ++ t).length =
      (((encode_ids_to_path ids).data.length - ids.length + t.length) + ids.length) := by
    simp only [List.length_append]
    omega
  rw [if_neg hne3, hflen, decodeAuxF_encode ids t _ h]

/-! ### Claim theorems -/

/-- C1 (counterexample): the round-trip law fails as universally stated.
For `n = 36 ^ 9 = 101559956668416` the base-36 body has 10 characters, so
`str(len)` is the two-character decimal prefix `"10"` and decoding the
resulting path `"101000000000"` misparses it (and in fact raises, hitting
an empty token body). -/
theorem c1_counterexample :
    decode_path_to_ids (some (encode_ids_to_path [101559956668416])) ≠
      some [101559956668416] := by decide

/-- C1 (amended): the round-trip law
`decode_path(encode_path(ids)) == ids` holds for every finite list of
non-negative integers whose base-36 representations fit in 9 characters
(`i < 36 ^ 9`), and on such well-formed paths `encode_path` is a left
inverse of `decode_path`. -/
theorem c1_round_trip (ids : List Nat) (h : ∀ i ∈ ids, i < 36 ^ 9) :
    decode_path_to_ids (some (encode_ids_to_path ids)) = some ids ∧
    ∀ l, decode_path_to_ids (some (encode_ids_to_path ids)) = some l →
      encode_ids_to_path l = encode_ids_to_path ids := by
  refine ⟨decode_encode h, ?_⟩
  intro l hl
  rw [decode_encode h] at hl
  cases hl
  rfl

/-- C1 (witness): the amended round-trip at a concrete id list. -/
theorem c1_round_trip_witness :
    decode_path_to_ids (some (encode_ids_to_path [0, 35, 36, 1295, 1296])) =
      some [0, 35, 36, 1295, 1296] :=
  (c1_round_trip [0, 35, 36, 1295, 1296] (by decide)).1

/-- C5 (counterexample): at `n = 36 ^ 9` the base-36 representation has 10
characters (within the claimed 35-character bound), yet `encode_base36_id`
does not produce a single base-36 length digit: it produces the
two-character decimal prefix `"10"` instead of `'A'`. -/
theorem c5_counterexample :
    (base36encode 101559956668416).length ≤ 35 ∧
    encode_base36_id 101559956668416 ≠
      String.mk [base36digit (base36encode 101559956668416).length] ++
        base36encode 101559956668416 := by
  constructor <;> decide

/-- C5 (amended): for every `n` whose base-36 representation has at most 9
characters (`n < 36 ^ 9`), `encode_base36_id n` is the base-36
representation of `n` (digits read MSB-first in positional base 36,
non-empty, no leading zero for positive `n`, `0` encoded as `"0"`)
prefixed by the single base-36 digit equal to its character length; in
particular `encode_base36_id 0 = "10"`. -/
theorem c5_token_format (n : Nat) (h : n < 36 ^ 9) :
    encode_base36_id n =
      String.mk [base36digit (base36encode n).length] ++ base36encode n
    ∧ base36decodeL (base36encode n).data = some n
    ∧ (base36encode n).data ≠ []
    ∧ (0 < n → (base36encode n).data.head? ≠ some '0')
    ∧ base36encode 0 = "0"
    ∧ encode_base36_id 0 = "10" := by
  have hL1 : 1 ≤ (base36encode n).length := base36encode_length_pos n
  have hL9 : (base36encode n).length ≤ 9 := base36encode_length_le_9 h
  refine ⟨?_, base36decodeL_base36encode n, base36encode_data_ne_nil n, ?_, by decide, by decide⟩
  · have hrepr := (repr_digit (base36encode n).length hL1 hL9).1
    have hdig := base36digit_of_le_9 (base36encode n).length hL9
    apply String.ext
    show (Nat.repr (base36encode n).length ++ base36encode n).data =
      (String.mk [base36digit (base36encode n).length] ++ base36encode n).data
    rw [String.data_append, String.data_append, hrepr, hdig]
  · intro hn
    obtain ⟨c, l, hcl, hc0⟩ := b36goF_head_ne_zero (n + 1) n [] hn (by omega)
    show (b36goF (n + 1) n []).head? ≠ some '0'
    rw [hcl]
    simp only [List.head?_cons, ne_eq, Option.some.injEq]
    exact hc0

/-- C5 (witness): the amended token format at `n = 46655` (`"ZZZ"`). -/
theorem c5_token_format_witness :
    encode_base36_id 46655 =
      String.mk [base36digit (base36encode 46655).length] ++ base36encode 46655 :=
  (c5_token_format 46655 (by decide)).1

/-- C6 (counterexample): a path whose declared token length overruns the
remaining string does NOT fail: `"2A"` declares a 2-character body but only
`"A"` remains, and the Python slice clamps, so decoding returns `[10]`
instead of raising. -/
theorem c6_counterexample :
    decode_path_to_ids (some "2A") ≠ none ∧ decode_path_to_ids (some "2A") = some [10] := by
  constructor <;> decide

/-- C6 (amended): `decode_path_to_ids` maps an absent or empty path to `[]`.
After any well-formed token prefix: a single trailing length digit is
silently ignored (no error); an ASCII length character that is not a
decimal digit raises; a declared body containing a `strayChar` — an ASCII
character that no numeral form accepted by Python's `int(s, 36)` can
absorb — raises; but a declared length that overruns the remaining string
is clamped to the remaining characters and decoded WITHOUT error (shown
for plain ASCII-alphanumeric bodies).  The raising statements are
restricted to these ASCII cases because CPython's `int` additionally
accepts Unicode decimal digits, signs, underscores and surrounding
whitespace, which the embedding does not model. -/
theorem c6_decode_malformed :
    decode_path_to_ids none = some []
    ∧ decode_path_to_ids (some "") = some []
    ∧ (∀ (ids : List Nat) (c : Char), (∀ i ∈ ids, i < 36 ^ 9) →
        decode_path_to_ids (some (encode_ids_to_path ids ++ String.mk [c])) = some ids)
    ∧ (∀ (ids : List Nat) (c : Char) (rest : List Char),
        (∀ i ∈ ids, i < 36 ^ 9) → rest ≠ [] → c.toNat < 128 → decDigitVal c = none →
        decode_path_to_ids (some (encode_ids_to_path ids ++ String.mk (c :: rest))) = none)
    ∧ (∀ (ids : List Nat) (c : Char) (d : Nat) (rest : List Char),
        (∀ i ∈ ids, i < 36 ^ 9) → decDigitVal c = some d →
        (∃ x ∈ rest.take d, strayChar x = true) →
        decode_path_to_ids (some (encode_ids_to_path ids ++ String.mk (c :: rest))) = none)
    ∧ (∀ (ids : List Nat) (c : Char) (d : Nat) (rest : List Char),
        (∀ i ∈ ids, i < 36 ^ 9) → decDigitVal c = some d →
        (∀ x ∈ rest, (b36charVal x).isSome = true) →
        rest ≠ [] → rest.length < d →
        decode_path_to_ids (some (encode_ids_to_path ids ++ String.mk (c :: rest))) =
          (base36decodeL rest).map (fun n => ids ++ [n])) := by
  refine ⟨rfl, rfl, ?_, ?_, ?_, ?_⟩
  · intro ids c h
    obtain ⟨g, hg⟩ := decode_encode_tail h [c] (by simp)
    rw [hg, decodeAuxF_single]
    simp
  · intro ids c rest h hrest _ hbad
    obtain ⟨b, l, hbl⟩ : ∃ b l, rest = b :: l := by
      cases rest with
      | nil => exact absurd rfl hrest
      | cons b l => exact ⟨b, l, rfl⟩
    subst hbl
    obtain ⟨g, hg⟩ := decode_encode_tail h (c :: b :: l) (by simp)
    rw [hg]
    have hfl : g + (c :: b :: l).length = (g + l.length + 1) + 1 := by
      simp only [List.length_cons]
      omega
    rw [hfl, decodeAuxF_cons_none _ _ _ _ hbad]
    rfl
  · intro ids c d rest h hdig hbad
    obtain ⟨x, hxmem, hxstray⟩ := hbad
    have hxbad : b36charVal x = none := strayChar_b36 hxstray
    have hrest : rest ≠ [] := by
      intro hh
      rw [hh] at hxmem
      simp at hxmem
    obtain ⟨b, l, hbl⟩ : ∃ b l, rest = b :: l := by
      cases rest with
      | nil => exact absurd rfl hrest
      | cons b l => exact ⟨b, l, rfl⟩
    subst hbl
    obtain ⟨g, hg⟩ := decode_encode_tail h (c :: b :: l) (by simp)
    have hfl : g + (c :: b :: l).length = (g + l.length + 1) + 1 := by
      simp only [List.length_cons]
      omega
    rw [hg, hfl, decodeAuxF_cons_some _ _ _ _ _ hdig]
    have htake : base36decodeL ((b :: l).take d) = none := by
      have hne : ¬((b :: l).take d = []) := by
        intro hh
        rw [hh] at hxmem
        simp at hxmem
      unfold base36decodeL
      rw [if_neg hne]
      exact b36decAux_none_of_bad _ 0 ⟨x, hxmem, hxbad⟩
    rw [htake]
    rfl
  · intro ids c d rest h hdig _ hrest hlen
    obtain ⟨b, l, hbl⟩ : ∃ b l, rest = b :: l := by
      cases rest with
      | nil => exact absurd rfl hrest
      | cons b l => exact ⟨b, l, rfl⟩
    subst hbl
    obtain ⟨g, hg⟩ := decode_encode_tail h (c :: b :: l) (by simp)
    have hfl : g + (c :: b :: l).length = (g + l.length + 1) + 1 := by
      simp only [List.length_cons]
      omega
    rw [hg, hfl, decodeAuxF_cons_some _ _ _ _ _ hdig]
    have htake : (b :: l).take d = b :: l := List.take_of_length_le (Nat.le_of_lt hlen)
    have hdrop : (b :: l).drop d = [] := List.drop_eq_nil_of_le (Nat.le_of_lt hlen)
    rw [htake, hdrop, decodeAuxF_nil]
    cases base36decodeL (b :: l) <;> rfl

/-- C6 (witness): the clamping branch of the amended claim at the concrete
path `"11" ++ "2A"`. -/
theorem c6_decode_malformed_witness :
    decode_path_to_ids (some (encode_ids_to_path [1] ++ String.mk ['2', 'A'])) =
      (base36decodeL ['A']).map (fun n => [1] ++ [n]) :=
  c6_decode_malformed.2.2.2.2.2 [1] '2' 2 ['A'] (by decide) (by decide) (by decide) (by decide)
    (by decide)

theorem save_reparent (store : Store) (rec : Record) (origPid : Option Nat) (pid : Nat)
    (hne : origPid ≠ rec.parent_id) (hpid : rec.parent_id = some pid) (h0 : pid ≠ 0) :
    save store rec origPid false =
      (match lookup store pid with
       | none => (Except.error SaveError.missingParent, store)
       | some parent =>
           match decode_path_to_ids (some (xstr parent.path ++ encode_base36_id pid)) with
           | none => (Except.error SaveError.malformed, store)
           | some parentIds =>
               if rec.id ∈ parentIds then (Except.error SaveError.validation, store)
               else
                 (Except.ok
                    (Record.mk rec.id (some pid) (some (xstr parent.path ++ encode_base36_id pid))),
                   persist
                     (bulkReplace store (xstr rec.path ++ encode_base36_id rec.id) (xstr rec.path)
                       (some (xstr parent.path ++ encode_base36_id pid)))
                     (Record.mk rec.id (some pid)
                       (some (xstr parent.path ++ encode_base36_id pid))))) := by
  unfold save
  rw [if_neg (by simp), if_pos hne, hpid]
  have htr : truthyId (some pid) = true := by simp [truthyId, h0]
  rw [htr]

/-- C9: saving an existing record whose `parent_id` equals the
`_original_parent_id` captured at load time skips the whole re-parenting
block: the record is persisted as-is (no path recomputation, no cycle
check), no bulk relocation is issued, and every other row of the store is
left untouched. -/
theorem c9_same_parent_noop (store : Store) (rec : Record) (origPid : Option Nat)
    (h : origPid = rec.parent_id) :
    (save store rec origPid false).1 = Except.ok rec
    ∧ (save store rec origPid false).2 = persist store rec
    ∧ ∀ r ∈ store, r.id ≠ rec.id → r ∈ (save store rec origPid false).2 := by
  have hsave : save store rec origPid false = (Except.ok rec, persist store rec) := by
    unfold save
    rw [if_neg (by simp), if_neg (fun hne => hne h)]
  refine ⟨by rw [hsave], by rw [hsave], ?_⟩
  intro r hr hne
  rw [hsave]
  exact mem_persist_of_ne hr hne

/-- C9 (witness): saving a child back with its unchanged parent id leaves
its row (and the sibling row) as they were. -/
theorem c9_same_parent_noop_witness :
    (save [Record.mk 1 none none, Record.mk 2 (some 1) (some "11")]
        (Record.mk 2 (some 1) (some "11")) (some 1) false).1 =
      Except.ok (Record.mk 2 (some 1) (some "11"))
    ∧ (save [Record.mk 1 none none, Record.mk 2 (some 1) (some "11")]
        (Record.mk 2 (some 1) (some "11")) (some 1) false).2 =
      persist [Record.mk 1 none none, Record.mk 2 (some 1) (some "11")]
        (Record.mk 2 (some 1) (some "11")) :=
  ⟨(c9_same_parent_noop _ _ _ rfl).1, (c9_same_parent_noop _ _ _ rfl).2.1⟩

/-- C10: re-parenting an existing record to an absent parent never runs
the cycle check (so no `CyclicParentError` is possible) and always sets
the record's own path to absent: `save` takes the `parent_id`-falsy branch
and succeeds. -/
theorem c10_reparent_to_root (store : Store) (rec : Record) (origPid : Option Nat)
    (hne : origPid ≠ rec.parent_id) (hnone : rec.parent_id = none) :
    (save store rec origPid false).1 = Except.ok (Record.mk rec.id none none) := by
  unfold save
  rw [if_neg (by simp), if_pos hne, hnone]

/-- C10 (witness): moving a child to the root level succeeds with an
absent path. -/
theorem c10_reparent_to_root_witness :
    (save [Record.mk 1 none none, Record.mk 2 (some 1) (some "11")]
        (Record.mk 2 none (some "11")) (some 1) false).1 =
      Except.ok (Record.mk 2 none none) :=
  c10_reparent_to_root _ _ _ (by decide) rfl

/-- C3: re-parenting a record to one of its own descendants (or to
itself) raises the cycle `ValidationError` (the spec's
`CyclicParentError`) and is atomic: the returned store is exactly the
input store — neither the record's row nor any descendant row is
mutated, because the exception is raised before the bulk relocation and
before the record's own row is written. -/
theorem c3_cycle_rejected (store : Store) (rec : Record) (origPid : Option Nat)
    (pid : Nat) (B : Record) (bids : List Nat)
    (hne : origPid ≠ rec.parent_id)
    (hpid : rec.parent_id = some pid) (hpid0 : pid ≠ 0)
    (hlook : lookup store pid = some B)
    (hbids : xstr B.path = encode_ids_to_path bids)
    (hbound : ∀ i ∈ bids, i < 36 ^ 9) (hpb : pid < 36 ^ 9)
    (hcyc : rec.id ∈ bids ∨ rec.id = pid) :
    save store rec origPid false = (Except.error SaveError.validation, store) := by
  have hmem : rec.id ∈ bids ++ [pid] := by
    rcases hcyc with h1 | h2
    · exact List.mem_append_left _ h1
    · rw [h2]
      exact List.mem_append_right _ (by simp)
  have hdec : decode_path_to_ids (some (xstr B.path ++ encode_base36_id pid)) =
      some (bids ++ [pid]) := by
    rw [hbids, ← encode_ids_to_path_single, ← encode_ids_to_path_append]
    refine decode_encode ?_
    intro i hi
    rcases List.mem_append.mp hi with h1 | h2
    · exact hbound i h1
    · simp at h2
      omega
  rw [save_reparent store rec origPid pid hne hpid hpid0, hlook]
  dsimp only
  rw [hdec]
  dsimp only
  rw [if_pos hmem]

/-- C3 (witness): re-parenting record 2 to itself errors and leaves the
two stored rows untouched. -/
theorem c3_cycle_rejected_witness :
    save [Record.mk 1 none none, Record.mk 2 (some 1) (some "11")]
        (Record.mk 2 (some 2) (some "11")) (some 1) false =
      (Except.error SaveError.validation,
        [Record.mk 1 none none, Record.mk 2 (some 1) (some "11")]) :=
  c3_cycle_rejected _ _ _ 2 (Record.mk 2 (some 1) (some "11")) [1]
    (by decide) rfl (by decide) (by decide) (by decide) (by decide) (by decide)
    (Or.inr rfl)

/-- C4: on first save (`_state.adding`), a record with an absent parent
gets an absent path and depth 0; a record with a present parent gets
`xstr(parent.path) + encode_base36_id(parent.id)`. -/
theorem c4_on_create (store : Store) (rec : Record) (origPid : Option Nat) :
    (rec.parent_id = none →
      (save store rec origPid true).1 = Except.ok (Record.mk rec.id none none)
      ∧ depth (Record.mk rec.id none none) = some 0)
    ∧ (∀ pid parent, rec.parent_id = some pid → lookup store pid = some parent →
        (save store rec origPid true).1 =
          Except.ok (Record.mk rec.id (some pid)
            (some (xstr parent.path ++ encode_base36_id pid)))) := by
  constructor
  · intro hnone
    refine ⟨?_, rfl⟩
    unfold save
    rw [if_pos rfl, hnone]
  · intro pid parent hpid hlook
    unfold save
    rw [if_pos rfl, hpid]
    dsimp only
    rw [hlook]
    dsimp only
    cases hp : parent.path with
    | none => simp [truthyPath, xstr, String.empty_append]
    | some s =>
        by_cases hs : s.data.isEmpty
        · have hse : s = "" := String.ext (List.isEmpty_iff.mp hs)
          subst hse
          simp [truthyPath, xstr, String.empty_append]
        · simp [truthyPath, hs, xstr]

/-- C4 (witness): creating a child of a root whose path is absent, and
creating a root. -/
theorem c4_on_create_witness :
    (save [Record.mk 1 none none] (Record.mk 7 (some 1) none) none true).1 =
      Except.ok (Record.mk 7 (some 1)
        (some (xstr (Record.mk 1 none none).path ++ encode_base36_id 1)))
    ∧ (save [] (Record.mk 8 none none) none true).1 = Except.ok (Record.mk 8 none none) :=
  ⟨(c4_on_create [Record.mk 1 none none] (Record.mk 7 (some 1) none) none).2 1
      (Record.mk 1 none none) rfl rfl,
    ((c4_on_create [] (Record.mk 8 none none) none).1 rfl).1⟩

/-- C2 (code bug): the bulk relocation uses SQL `REPLACE`, which replaces
EVERY occurrence of the old prefix in a descendant's path, not only the
leading one.  Store: root 1; record 2 under 1 (path `"11"`); record 37
under 2 (path `"1112"`); record 5 under 37 (path `"1112211"`, whose tail
token `"211"` encodes 37 and happens to contain the old prefix `"11"`
again); root 4.  Re-parenting record 2 from parent 1 to parent 4 should
give record 5 the path `"1412211"` (decoding `[4, 2, 37]`: new parent
chain plus the preserved relative chain `[2, 37]`), but the code produces
`"1412214"`, which decodes to `[4, 2, 40]` — the tail was not preserved
verbatim. -/
theorem c2_bulk_replace_corrupts :
    (save [Record.mk 1 none none, Record.mk 2 (some 1) (some "11"),
        Record.mk 37 (some 2) (some "1112"), Record.mk 5 (some 37) (some "1112211"),
        Record.mk 4 none none]
      (Record.mk 2 (some 4) (some "11")) (some 1) false).2 =
      [Record.mk 1 none none, Record.mk 2 (some 4) (some "14"),
        Record.mk 37 (some 2) (some "1412"), Record.mk 5 (some 37) (some "1412214"),
        Record.mk 4 none none]
    ∧ decode_path_to_ids (some "1412214") = some [4, 2, 40]
    ∧ decode_path_to_ids (some "1412211") = some [4, 2, 37] := by
  refine ⟨by decide, by decide, by decide⟩

/-- C7 (counterexample): the claim fails for roots.  A store holding a
single root record: no other record shares its (absent) `parent_id`, yet
`get_siblings` returns an EMPTY collection, not absent — the root branch
returns the queryset directly without the empty-to-`None` conversion. -/
theorem c7_counterexample :
    get_siblings [Record.mk 1 none none] (Record.mk 1 none none) ≠ none
    ∧ get_siblings [Record.mk 1 none none] (Record.mk 1 none none) = some [] := by
  constructor <;> decide

/-- C7 (amended): for a record with a (truthy) parent id, `get_siblings`
returns absent exactly when no other record shares the parent id, and
otherwise the non-empty collection of exactly those records; for a root
record it returns the collection of all other roots, which may be EMPTY
(never absent). -/
theorem c7_siblings (store : Store) (rec : Record) :
    (∀ pid, rec.parent_id = some pid → 0 < pid →
      ((get_siblings store rec = none ↔
          ∀ r ∈ store, r.parent_id = some pid → r.id = rec.id)
        ∧ ∀ l, get_siblings store rec = some l →
            l ≠ [] ∧ ∀ r : Record, (r ∈ l ↔ r ∈ store ∧ r.parent_id = some pid ∧ r.id ≠ rec.id)))
    ∧ (rec.parent_id = none →
        ∃ l, get_siblings store rec = some l ∧
          ∀ r : Record, (r ∈ l ↔ r ∈ store ∧ r.parent_id = none ∧ r.id ≠ rec.id)) := by
  constructor
  · intro pid hpid hpos
    have htr : truthyId rec.parent_id = true := by
      rw [hpid]
      simp only [truthyId]
      exact bne_iff_ne.mpr (by omega)
    have heq : get_siblings store rec =
        if (store.filter (fun r => r.parent_id == rec.parent_id && r.id != rec.id)).isEmpty
        then none
        else some (store.filter (fun r => r.parent_id == rec.parent_id && r.id != rec.id)) := by
      unfold get_siblings
      rw [htr, if_neg (by simp)]
    have hbool : ∀ r : Record, ((r.parent_id == rec.parent_id && r.id != rec.id) = true) ↔
        (r.parent_id = some pid ∧ r.id ≠ rec.id) := by
      intro r
      rw [hpid]
      simp [Bool.and_eq_true]
    constructor
    · rw [heq]
      by_cases he :
        (store.filter (fun r => r.parent_id == rec.parent_id && r.id != rec.id)).isEmpty
      · rw [if_pos he]
        have hnil := List.isEmpty_iff.mp he
        rw [List.filter_eq_nil_iff] at hnil
        constructor
        · intro _ r hr hrp
          by_contra hrid
          exact hnil r hr ((hbool r).mpr ⟨hrp, hrid⟩)
        · intro _
          rfl
      · rw [if_neg he]
        constructor
        · intro hcontra
          exact absurd hcontra (by simp)
        · intro hall
          exfalso
          apply he
          rw [List.isEmpty_iff, List.filter_eq_nil_iff]
          intro r hr hb
          obtain ⟨hrp, hrid⟩ := (hbool r).mp hb
          exact hrid (hall r hr hrp)
    · intro l hl
      rw [heq] at hl
      by_cases he :
        (store.filter (fun r => r.parent_id == rec.parent_id && r.id != rec.id)).isEmpty
      · rw [if_pos he] at hl
        exact absurd hl (by simp)
      · rw [if_neg he] at hl
        injection hl with hinj
        subst hinj
        constructor
        · intro hnil
          apply he
          rw [List.isEmpty_iff]
          exact hnil
        · intro r
          rw [List.mem_filter]
          constructor
          · rintro ⟨hr, hb⟩
            exact ⟨hr, (hbool r).mp hb⟩
          · rintro ⟨hr, h1, h2⟩
            exact ⟨hr, (hbool r).mpr ⟨h1, h2⟩⟩
  · intro hnone
    have htr : truthyId rec.parent_id = false := by
      rw [hnone]
      rfl
    refine ⟨store.filter (fun r => r.parent_id == none && r.id != rec.id), ?_, ?_⟩
    · unfold get_siblings
      rw [htr, if_pos rfl]
    · intro r
      rw [List.mem_filter]
      simp [Bool.and_eq_true]

/-- C7 (witness): the amended claim at a concrete store — a root with one
sibling root sees exactly that other root. -/
theorem c7_siblings_witness :
    ∃ l, get_siblings [Record.mk 1 none none, Record.mk 4 none none]
        (Record.mk 1 none none) = some l
      ∧ ∀ r : Record,
          (r ∈ l ↔ r ∈ [Record.mk 1 none none, Record.mk 4 none none]
            ∧ r.parent_id = none ∧ r.id ≠ (Record.mk 1 none none).id) :=
  (c7_siblings [Record.mk 1 none none, Record.mk 4 none none] (Record.mk 1 none none)).2 rfl

set_option maxRecDepth 100000 in
/-- C8 (counterexample): the claim
`ancestorAtDepth(record, depth(record)) == record` fails for a record of
depth 257.  The source compares `self_depth is depth` with CPython object
identity, which is `False` for equal ints ≥ 257 (outside the small-int
cache); the program then also fails `self_depth < depth` and executes
`ids[depth]` with `depth == len(ids)`, raising `IndexError` instead of
returning the record.  Here: a record whose path encodes the 257 ancestor
ids `1..257`. -/
theorem c8_counterexample :
    depth (Record.mk 999 (some 257) (some (encode_ids_to_path (List.range' 1 257)))) =
      some 257
    ∧ get_ancestor []
        (Record.mk 999 (some 257) (some (encode_ids_to_path (List.range' 1 257)))) 257 =
      Except.error QueryError.indexError := by
  constructor <;> decide

/-- C8 (amended): `get_ancestor` rejects negative depths and depths above
the record's own depth with `ValueError`; depth 0 returns `get_root`; the
record's own depth returns the record itself PROVIDED that depth is at
most 256 (inside CPython's small-int cache, where the source's
`self_depth is depth` identity test behaves as equality) — at an own depth
of 257 or more it raises `IndexError` instead; a strictly intermediate
depth returns the stored record whose id sits at that position of the
decoded ancestor chain. -/
theorem c8_ancestor_at_depth (store : Store) (rec : Record) (ids : List Nat)
    (hwf : (rec.path = none ∧ ids = []) ∨
      (ids ≠ [] ∧ (∀ i ∈ ids, i < 36 ^ 9) ∧ rec.path = some (encode_ids_to_path ids))) :
    (∀ d : Int, d < 0 → get_ancestor store rec d = Except.error QueryError.invalid)
    ∧ get_ancestor store rec 0 = get_root store rec
    ∧ (ids.length ≤ 256 → get_ancestor store rec (ids.length : Int) = Except.ok rec)
    ∧ (256 < ids.length →
        get_ancestor store rec (ids.length : Int) = Except.error QueryError.indexError)
    ∧ (∀ d : Int, (ids.length : Int) < d →
        get_ancestor store rec d = Except.error QueryError.invalid)
    ∧ (∀ d : Int, 0 < d → d < (ids.length : Int) → ∀ a anc,
        ids.get? d.toNat = some a → lookup store a = some anc →
        get_ancestor store rec d = Except.ok anc) := by
  have hdepth : depth rec = some ids.length := by
    rcases hwf with ⟨hp, hids⟩ | ⟨hne, hb, hp⟩
    · subst hids
      simpa using depth_of_none hp
    · exact depth_of_encode hb hne hp
  refine ⟨?_, ?_, ?_, ?_, ?_, ?_⟩
  · intro d hd
    unfold get_ancestor
    rw [if_pos hd]
  · unfold get_ancestor
    rw [if_neg (by omega), if_pos rfl]
  · intro h256
    rcases hwf with ⟨hp, hids⟩ | ⟨hne, hb, hp⟩
    · subst hids
      have h0 : ((([] : List Nat)).length : Int) = 0 := rfl
      rw [h0]
      unfold get_ancestor
      rw [if_neg (by omega), if_pos rfl]
      exact get_root_of_none hp
    · have hpos : 1 ≤ ids.length := by
        cases ids with
        | nil => exact absurd rfl hne
        | cons _ _ => simp
      unfold get_ancestor
      rw [if_neg (by omega), if_neg (by omega), hdepth]
      dsimp only
      rw [if_pos ⟨rfl, h256⟩]
  · intro h256
    rcases hwf with ⟨hp, hids⟩ | ⟨hne, hb, hp⟩
    · exfalso
      subst hids
      rw [List.length_nil] at h256
      omega
    · unfold get_ancestor
      rw [if_neg (by omega), if_neg (by omega), hdepth]
      dsimp only
      rw [if_neg (by omega), if_neg (by omega), hp, decode_encode hb]
      dsimp only
      have hnone : ids.get? ((ids.length : Int)).toNat = none := by
        rw [show ((ids.length : Int)).toNat = ids.length from by simp]
        exact List.get?_eq_none.mpr (le_refl _)
      rw [hnone]
  · intro d hd
    unfold get_ancestor
    rw [if_neg (by omega), if_neg (by omega), hdepth]
    dsimp only
    rw [if_neg (by omega), if_pos hd]
  · intro d hd1 hd2 a anc hget hlook
    rcases hwf with ⟨hp, hids⟩ | ⟨hne, hb, hp⟩
    · exfalso
      subst hids
      rw [show ((([] : List Nat)).length : Int) = 0 from rfl] at hd2
      omega
    · unfold get_ancestor
      rw [if_neg (by omega), if_neg (by omega), hdepth]
      dsimp only
      rw [if_neg (by omega), if_neg (by omega), hp, decode_encode hb]
      dsimp only
      rw [hget]
      dsimp only
      rw [hlook]

/-- C8 (witness): in the chain 1 → 2 → 3 (record 3 has path `"1112"`,
ids `[1, 2]`, depth 2 ≤ 256), the ancestor at the record's own depth is
the record and the ancestor at depth 1 is record 2. -/
theorem c8_ancestor_at_depth_witness :
    get_ancestor
        [Record.mk 1 none none, Record.mk 2 (some 1) (some "11"),
          Record.mk 3 (some 2) (some "1112")]
        (Record.mk 3 (some 2) (some "1112")) (([1, 2] : List Nat).length : Int) =
      Except.ok (Record.mk 3 (some 2) (some "1112"))
    ∧ get_ancestor
        [Record.mk 1 none none, Record.mk 2 (some 1) (some "11"),
          Record.mk 3 (some 2) (some "1112")]
        (Record.mk 3 (some 2) (some "1112")) 1 =
      Except.ok (Record.mk 2 (some 1) (some "11")) :=
  ⟨(c8_ancestor_at_depth _ _ [1, 2]
      (Or.inr ⟨by decide, by decide, by decide⟩)).2.2.1 (by decide),
    (c8_ancestor_at_depth _ _ [1, 2]
      (Or.inr ⟨by decide, by decide, by decide⟩)).2.2.2.2.2 1 (by decide) (by decide) 2
      (Record.mk 2 (some 1) (some "11")) (by decide) (by decide)⟩

end MatPath
